import Mathlib

/-!
# Verification of the yt-parallel merge/render core

Shallow embedding of `yt_parallel/main.py`: the cue extractor
(`cue_pattern.findall`), the text sanitizer (`re.sub(r'<.*?>', '', t.strip())`),
the eSpeak IPA adapter (`generate_ipa`), the cue aligner/merger loop and the
HTML document renderer (`merge_vtt_to_html`).

Strings are modelled as `List Char`.  The external `espeak` subprocess is
modelled as an oracle `ESpeak` mapping the language code and the input text to
one of the three outcomes the Python code distinguishes: a captured stdout
(`ok`), a missing binary (`FileNotFoundError`, `notFound`), and a non-zero
exit (`subprocess.CalledProcessError`, `callFailed`).  `sys.exit(1)` paths are
modelled with `Except`: `.error msg` is a fatal termination carrying the
message written to stderr, so a fatal run produces no document on stdout by
construction.  Warnings written to stderr on non-fatal paths are collected in
a list.  Python's `str.strip` and the regex classes `\s` and `\d` are modelled
on their ASCII fragment, which covers the subtitle data the tool processes.
-/

namespace YtParallel

/-- ASCII fragment of Python's whitespace class (` \t\n\r\x0b\x0c`),
used by `str.strip()` and by the regex class `\s`. -/
def pyWs (c : Char) : Bool :=
  c = ' ' || c = '\t' || c = '\n' || c = '\r' || c = '\x0b' || c = '\x0c'

/-- Python `s.strip()`: drop leading and trailing whitespace. -/
def pyStrip (s : List Char) : List Char :=
  ((s.dropWhile pyWs).reverse.dropWhile pyWs).reverse

/-- Python `s.strip(c)` for a single-character argument: drop leading and
trailing occurrences of `c`. -/
def pyStripChar (ch : Char) (s : List Char) : List Char :=
  ((s.dropWhile (· = ch)).reverse.dropWhile (· = ch)).reverse

/-! ## Text sanitizer: `re.sub(r'<.*?>', '', text)`

The pattern (no DOTALL) matches a `<`, then lazily any characters other than
`'\n'`, up to the first `'>'`.  `re.sub` scans left to right and deletes every
match.  Operationally: on reading `<` start buffering; if a `>` arrives before
a newline or the end, the whole buffered region (the match) is dropped;
otherwise the match attempt at the `<` (and at every later position inside the
buffered region, which cannot succeed either, lacking the same `>`) fails and
the region is emitted verbatim. -/

/-- One-pass scanner for `re.sub(r'<.*?>', '', s)`.  `none` = not inside a
candidate match; `some buf` = the characters read since the opening `<`,
in reverse order. -/
def removeTagsAux : Option (List Char) → List Char → List Char
  | none, [] => []
  | none, c :: rest =>
    if c = '<' then removeTagsAux (some []) rest
    else c :: removeTagsAux none rest
  | some buf, [] => '<' :: buf.reverse
  | some buf, c :: rest =>
    if c = '>' then removeTagsAux none rest
    else if c = '\n' then '<' :: buf.reverse ++ '\n' :: removeTagsAux none rest
    else removeTagsAux (some (c :: buf)) rest

/-- `re.sub(r'<.*?>', '', s)`: delete every lazy `<…>` match. -/
def removeTags (s : List Char) : List Char :=
  removeTagsAux none s

/-- The sanitizer applied to each cue text in `merge_vtt_to_html`
(main.py:167-168): `re.sub(r'<.*?>', '', text.strip())` — strip first,
then remove inline markup. -/
def clean_text (t : List Char) : List Char :=
  removeTags (pyStrip t)

/-- `(re.search(r'<.*?>', s) is not None)`: is there a `<` with a matching
`>` after it before a newline?  Helper for reasoning about `removeTags`. -/
def findGt : List Char → Option (List Char)
  | [] => none
  | c :: rest =>
    if c = '>' then some rest
    else if c = '\n' then none
    else findGt rest

/-- Whether `s` contains a match of `r'<.*?>'` (no DOTALL). -/
def hasMatch : List Char → Bool
  | [] => false
  | c :: rest =>
    if c = '<' then (findGt rest).isSome || hasMatch rest
    else hasMatch rest

/-! ## eSpeak adapter: `generate_ipa` (main.py:40-69) -/

/-- Outcome of one `subprocess.run(['espeak', '-v'+lang, '-q', '--ipa=2',
text], …)` invocation, as the Python code distinguishes them. -/
inductive EspeakResult where
  | ok (stdout : List Char)
  | notFound
  | callFailed (stderr : List Char)
deriving DecidableEq

/-- The external espeak binary, as an oracle from (language code, input text)
to the outcome of the invocation. -/
def ESpeak := List Char → List Char → EspeakResult

mutual
/-- `re.sub(r'\s+', ' ', s)`: collapse every run of whitespace to a single
space (mutually defined with `collapseWsRun`, which is the state inside a
run). -/
def collapseWs : List Char → List Char
  | [] => []
  | c :: rest => if pyWs c then ' ' :: collapseWsRun rest else c :: collapseWs rest
/-- State of `collapseWs` inside a whitespace run: drop further whitespace. -/
def collapseWsRun : List Char → List Char
  | [] => []
  | c :: rest => if pyWs c then collapseWsRun rest else c :: collapseWs rest
end

/-- Apostrophe (written by code point to keep the source ASCII-clean). -/
def apos : Char := Char.ofNat 39

/-- `result.stdout.strip().strip("'").strip('"')` followed by
`re.sub(r'\s+', ' ', ipa).strip()` (main.py:58-59). -/
def normalizeIpa (out : List Char) : List Char :=
  pyStrip (collapseWs (pyStripChar '"' (pyStripChar apos (pyStrip out))))

/-- stderr message of the fatal `FileNotFoundError` branch (main.py:62). -/
def espeakNotFoundMsg : List Char :=
  "\n! FATAL ERROR: \x27espeak\x27 command not found. IPA generation failed.\n".data

/-- stderr warning of the non-fatal `CalledProcessError` branch (main.py:65);
it names the language code. -/
def espeakWarnMsg (lang err : List Char) : List Char :=
  "Warning: eSpeak failed for language \x27".data ++ lang ++
    "\x27. Output: ".data ++ pyStrip err ++ "\n".data

/-- `generate_ipa(text, lang_code)` (main.py:40-69).  Returns
`.error fatalMsg` for the fatal missing-binary path (`sys.exit(1)`), and
`.ok (ipa, warnings)` otherwise, where `warnings` are the stderr lines of
the non-fatal failure branch. -/
def generate_ipa (es : ESpeak) (text lang : List Char) :
    Except (List Char) (List Char × List (List Char)) :=
  if text = [] then .ok ([], [])
  else
    match es lang text with
    | .ok out => .ok (normalizeIpa out, [])
    | .notFound => .error espeakNotFoundMsg
    | .callFailed err => .ok ([], [espeakWarnMsg lang err])

/-! ## Cue extractor: `cue_pattern.findall` (main.py:149-154)

`re.compile(r'(\d{2}:\d{2}:\d{2}\.\d{3} --> .*?\n)(.*?)(?=\n\n|\Z)',
re.DOTALL)`.  Group 1 is the timing-header line: the fixed
`\d{2}:\d{2}:\d{2}\.\d{3} --> ` prefix, then (lazily) the rest of the line up
to and including the first `'\n'`.  Group 2 lazily matches any characters
(DOTALL) up to the first position where `'\n\n'` follows or the input ends;
the lookahead consumes nothing.  `findall` scans left to right, skipping one
character after a failed match attempt and continuing after the end of each
successful match. -/

/-- One token of the fixed header prefix: a `\d` class or a literal. -/
inductive Tok where
  | digit
  | lit (c : Char)

/-- Match a fixed token list against the front of the input, returning the
consumed characters and the remainder. -/
def matchToks : List Tok → List Char → Option (List Char × List Char)
  | [], s => some ([], s)
  | _ :: _, [] => none
  | t :: ts, c :: s =>
    if (match t with | .digit => c.isDigit | .lit ch => c == ch)
    then match matchToks ts s with
      | none => none
      | some (acc, rest) => some (c :: acc, rest)
    else none

/-- The fixed prefix `\d{2}:\d{2}:\d{2}\.\d{3} --> ` of the cue pattern. -/
def headerToks : List Tok :=
  [.digit, .digit, .lit ':', .digit, .digit, .lit ':', .digit, .digit,
   .lit '.', .digit, .digit, .digit, .lit ' ', .lit '-', .lit '-', .lit '>',
   .lit ' ']

/-- The lazy `.*?\n` tail of group 1: everything up to and including the
first newline (fails if the input has no newline). -/
def takeToNewline : List Char → Option (List Char × List Char)
  | [] => none
  | c :: rest =>
    if c = '\n' then some ([c], rest)
    else
      match takeToNewline rest with
      | none => none
      | some (acc, r) => some (c :: acc, r)

/-- Group 2, `(.*?)(?=\n\n|\Z)` under DOTALL: lazily take characters until
`'\n\n'` follows or the input ends; the lookahead consumes nothing. -/
def takeBody : List Char → List Char × List Char
  | [] => ([], [])
  | c :: rest =>
    if c = '\n' ∧ rest.head? = some '\n' then ([], c :: rest)
    else
      let p := takeBody rest
      (c :: p.1, p.2)

/-- Attempt the cue pattern at the current position.  On success, returns the
two captured groups (timing header with its newline, raw cue text) and the
remainder of the input after the match. -/
def matchAt (s : List Char) : Option ((List Char × List Char) × List Char) :=
  match matchToks headerToks s with
  | none => none
  | some (pre, r1) =>
    match takeToNewline r1 with
    | none => none
    | some (line, r2) =>
      let b := takeBody r2
      some ((pre ++ line, b.1), b.2)

/-- The `findall` scan: try the pattern at each position, emitting each match
and continuing after it.  Every successful match consumes at least one
character, so `fuel = s.length` suffices (see `cue_findall`). -/
def findallAux : Nat → List Char → List (List Char × List Char)
  | 0, _ => []
  | _ + 1, [] => []
  | fuel + 1, c :: rest =>
    match matchAt (c :: rest) with
    | some (groups, r) => groups :: findallAux fuel r
    | none => findallAux fuel rest

/-- `cue_pattern.findall(content)` (main.py:149-154). -/
def cue_findall (s : List Char) : List (List Char × List Char) :=
  findallAux s.length s

/-! ## Aligner/merger and renderer (main.py:135-235) -/

/-- The separator fragment appended between blocks (main.py:193). -/
def hrFrag : List Char := "    <hr>\n".data

/-- The newline fragment appended after every block (main.py:195). -/
def nlFrag : List Char := "\n".data

/-- One rendered paragraph block (main.py:172-189): bold primary line when
non-empty; a `<br>` when phonetic or secondary text is non-empty; the
phonetic line wrapped in slashes inside an `ipa`-classed span when non-empty;
another `<br>` between phonetic and secondary when both are non-empty; the
secondary line when non-empty. -/
def buildParagraph (cleanL1 ipa cleanL2 : List Char) : List Char :=
  "    <p>".data ++
    (if cleanL1 = [] then [] else "<b>".data ++ cleanL1 ++ "</b>".data) ++
    (if ipa ≠ [] ∨ cleanL2 ≠ [] then " \n        <br> ".data else []) ++
    (if ipa = [] then [] else "<span class=\"ipa\">/".data ++ ipa ++ "/</span>".data) ++
    (if ipa ≠ [] ∧ cleanL2 ≠ [] then " \n        <br> ".data else []) ++
    (if cleanL2 = [] then [] else cleanL2) ++
    "</p>".data

/-- The merge loop body (main.py:165-195): for the cue pair at index `i` of
`count`, sanitize both texts, obtain IPA for the primary text, emit the
paragraph, an `<hr>` separator unless this is the last index, and a newline.
A fatal `generate_ipa` outcome aborts the whole run. -/
def renderLoop (es : ESpeak) (l1 : List Char) :
    List ((List Char × List Char) × (List Char × List Char)) → Nat → Nat →
    Except (List Char) (List (List Char) × List (List Char))
  | [], _, _ => .ok ([], [])
  | pr :: rest, i, count =>
    match generate_ipa es (clean_text pr.1.2) l1 with
    | .error m => .error m
    | .ok (ipa, ws) =>
      match renderLoop es l1 rest (i + 1) count with
      | .error m => .error m
      | .ok (frags, ws2) =>
        .ok (buildParagraph (clean_text pr.1.2) ipa (clean_text pr.2.2) ::
              (if i < count - 1 then hrFrag :: nlFrag :: frags
               else nlFrag :: frags),
             ws ++ ws2)

/-- Python `s.upper()` (ASCII). -/
def pyUpper (s : List Char) : List Char := s.map Char.toUpper

/-- The placeholder body rendered when no cues were found (main.py:231). -/
def noCuesMsg : List Char :=
  "<p>Error: No cues found. Check VTT content.</p>".data

/-- The fatal stderr message for mismatched cue counts (main.py:159).
Note that it is a fixed string: it does not contain either count. -/
def mismatchMsg : List Char :=
  "! FATAL ERROR: Cue counts do not match. Files are misaligned.\n".data

/-- Head of the document shell up to the title: doctype, `html` element
with its `lang` attribute set to the secondary code, charset and viewport
metadata (main.py:197-201). -/
def docHead (l2 : List Char) : List Char :=
  "<!DOCTYPE html>\n<html lang=\"".data ++ l2 ++
    "\">\n<head>\n    <meta charset=\"UTF-8\">\n    <meta name=\"viewport\" content=\"width=device-width, initial-scale=1.0\">\n    ".data

/-- The document title, naming both language codes uppercased
(main.py:202). -/
def docTitle (l1 l2 : List Char) : List Char :=
  "<title>Parallel Transcript: ".data ++ pyUpper l1 ++ " / ".data ++
    pyUpper l2 ++ " with IPA</title>".data

/-- The fixed style block and the opening of the body (main.py:203-229). -/
def docStyleBody : List Char :=
  "\n    <style>\n        body \x7b\n            font-family: Arial, sans-serif;\n            line-height: 1.6;\n            padding: 20px;\n            max-width: 800px;\n            margin: 0 auto;\n        \x7d\n        p \x7b\n            margin: 1em 0; \n            white-space: normal;\n        \x7d\n        .ipa \x7b\n            font-family: \"Lucida Sans Unicode\", \"Arial Unicode MS\", sans-serif; \n            font-size: 0.9em;\n            color: #555;\n            font-style: italic;\n        \x7d\n        hr \x7b\n            border: 0;\n            height: 1px;\n            background: #ccc;\n            margin: 15px 0; \n        \x7d\n    </style>\n</head>\n<body>\n    ".data

/-- The heading, naming both language codes uppercased, and the newline
before the body line (main.py:230). -/
def docH1 (l1 l2 : List Char) : List Char :=
  "<h1>Parallel Transcript: ".data ++ pyUpper l1 ++ " in Bold, IPA, and ".data ++
    pyUpper l2 ++ "</h1>".data ++ "\n".data

/-- The document shell before the body line of the f-string template
(main.py:197-230), parameterized by the two language codes: `lang` attribute
set to the secondary code, title and heading naming both codes uppercased. -/
def docShellOpen (l1 l2 : List Char) : List Char :=
  docHead l2 ++ docTitle l1 l2 ++ docStyleBody ++ docH1 l1 l2

/-- The document shell after the body line of the template (main.py:232-234). -/
def docShellClose : List Char := "\n</body>\n</html>\n".data

/-- The f-string template (main.py:197-235): shell around either the
placeholder (no blocks) or the joined and stripped fragments. -/
def htmlTemplate (l1 l2 : List Char) (frags : List (List Char)) : List Char :=
  docShellOpen l1 l2 ++
    (if frags = [] then noCuesMsg else pyStrip frags.flatten) ++
  docShellClose

/-- The secondary cue sequence used by the merge (main.py:156): the extracted
cues of the secondary content, or — when the secondary file is absent or
empty, so `content2` is the empty string — a placeholder list of empty cues
matching the primary count. -/
def cues2_of (content1 content2 : List Char) : List (List Char × List Char) :=
  if content2 = [] then
    List.replicate (cue_findall content1).length (([] : List Char), ([] : List Char))
  else cue_findall content2

/-- `merge_vtt_to_html(file1, file2, l1, l2)` (main.py:135-235), over the file
contents (an absent secondary file is content `[]`).  Fatal paths
(`sys.exit(1)`) are `.error msg`; success returns the full HTML document
together with the accumulated stderr warnings. -/
def merge_vtt_to_html (es : ESpeak) (content1 content2 l1 l2 : List Char) :
    Except (List Char) (List Char × List (List Char)) :=
  let cues1 := cue_findall content1
  let cues2 := cues2_of content1 content2
  if cues1.length ≠ cues2.length then .error mismatchMsg
  else
    match renderLoop es l1 (cues1.zip cues2) 0 cues1.length with
    | .error m => .error m
    | .ok (frags, ws) => .ok (htmlTemplate l1 l2 frags, ws)

/-! ## Derived forms used to state the claims -/

/-- The IPA string `generate_ipa` yields for a sanitized primary text on a
non-fatal path. -/
def ipaOf (es : ESpeak) (l1 t : List Char) : List Char :=
  if t = [] then []
  else
    match es l1 t with
    | .ok out => normalizeIpa out
    | _ => []

/-- The stderr warnings `generate_ipa` emits for a sanitized primary text on
a non-fatal path. -/
def warnsOf (es : ESpeak) (l1 t : List Char) : List (List Char) :=
  if t = [] then []
  else
    match es l1 t with
    | .callFailed err => [espeakWarnMsg l1 err]
    | _ => []

/-- The rendered block for one aligned cue pair. -/
def paraOf (es : ESpeak) (l1 : List Char)
    (pr : (List Char × List Char) × (List Char × List Char)) : List Char :=
  buildParagraph (clean_text pr.1.2) (ipaOf es l1 (clean_text pr.1.2))
    (clean_text pr.2.2)

/-- The stderr warnings accumulated over the merge loop, in cue order. -/
def loopWarns (es : ESpeak) (l1 : List Char) :
    List ((List Char × List Char) × (List Char × List Char)) →
    List (List Char)
  | [] => []
  | pr :: rest => warnsOf es l1 (clean_text pr.1.2) ++ loopWarns es l1 rest

/-- The fragment list produced by the merge loop on an all-non-fatal run:
mirrors `renderLoop`, with the index/count bookkeeping, dropping the IPA
plumbing. -/
def loopFrags (es : ESpeak) (l1 : List Char) :
    List ((List Char × List Char) × (List Char × List Char)) → Nat → Nat →
    List (List Char)
  | [], _, _ => []
  | pr :: rest, i, count =>
    paraOf es l1 pr ::
      (if i < count - 1 then hrFrag :: nlFrag :: loopFrags es l1 rest (i + 1) count
       else nlFrag :: loopFrags es l1 rest (i + 1) count)

/-- Modelled from the spec: the block/separator layout the specification
describes — one block per index, in index order, with one separator after
every block except the last (the code also appends a plain newline fragment
after every block, separator included). -/
def mergerSpecFrags : List (List Char) → List (List Char)
  | [] => []
  | [p] => [p, nlFrag]
  | p :: ps => p :: hrFrag :: nlFrag :: mergerSpecFrags ps

/-- Does a fragment start a paragraph block? -/
def isParaFrag (f : List Char) : Bool := "    <p>".data.isPrefixOf f

/-- A `generate_ipa` call whose espeak invocation is not the fatal
missing-binary case returns `.ok` with `ipaOf`/`warnsOf`. -/
theorem generate_ipa_eq_ok (es : ESpeak) (l1 t : List Char)
    (h : t ≠ [] → es l1 t ≠ .notFound) :
    generate_ipa es t l1 = .ok (ipaOf es l1 t, warnsOf es l1 t) := by
  unfold generate_ipa ipaOf warnsOf
  by_cases ht : t = []
  · simp [ht]
  · cases hes : es l1 t with
    | ok out => simp [ht, hes]
    | notFound => exact absurd hes (h ht)
    | callFailed err => simp [ht, hes]

/-- On a run where no espeak invocation hits the missing-binary case, the
merge loop succeeds with the `loopFrags` fragments and `loopWarns`
warnings. -/
theorem renderLoop_ok (es : ESpeak) (l1 : List Char)
    (pairs : List ((List Char × List Char) × (List Char × List Char)))
    (hes : ∀ pr ∈ pairs, clean_text pr.1.2 ≠ [] →
      es l1 (clean_text pr.1.2) ≠ .notFound) :
    ∀ i count, renderLoop es l1 pairs i count =
      .ok (loopFrags es l1 pairs i count, loopWarns es l1 pairs) := by
  induction pairs with
  | nil => intro i count; rfl
  | cons pr rest ih =>
    intro i count
    have h0 : clean_text pr.1.2 ≠ [] → es l1 (clean_text pr.1.2) ≠ .notFound :=
      hes pr (List.mem_cons_self pr rest)
    have hrest : ∀ q ∈ rest, clean_text q.1.2 ≠ [] →
        es l1 (clean_text q.1.2) ≠ .notFound :=
      fun q hq => hes q (List.mem_cons_of_mem pr hq)
    simp only [renderLoop, generate_ipa_eq_ok es l1 _ h0, ih hrest,
      loopFrags, loopWarns, paraOf]

/-- Started at index `0` with `count` the number of pairs, the loop's
fragment list has exactly the specified block/separator shape. -/
theorem loopFrags_shape (es : ESpeak) (l1 : List Char) :
    ∀ (pairs : List ((List Char × List Char) × (List Char × List Char)))
      (i count : Nat), count = i + pairs.length →
      loopFrags es l1 pairs i count = mergerSpecFrags (pairs.map (paraOf es l1))
  | [], _, _, _ => rfl
  | pr :: rest, i, count, hc => by
    cases rest with
    | nil =>
      have hc1 : count = i + 1 := by simpa using hc
      have hnl : ¬ i < count - 1 := by omega
      simp [loopFrags, hnl, mergerSpecFrags]
    | cons q rest2 =>
      have hc2 : count = i + (rest2.length + 2) := by simpa using hc
      have hlt : i < count - 1 := by omega
      have hrec := loopFrags_shape es l1 (q :: rest2) (i + 1) count
        (by simp; omega)
      rw [List.map_cons,
        show mergerSpecFrags (paraOf es l1 pr ::
            List.map (paraOf es l1) (q :: rest2)) =
          paraOf es l1 pr :: hrFrag :: nlFrag ::
            mergerSpecFrags (List.map (paraOf es l1) (q :: rest2)) from by
          simp [mergerSpecFrags],
        ← hrec]
      simp only [loopFrags, if_pos hlt]

/-- A list is a prefix (in the Boolean sense) of itself followed by
anything. -/
theorem isPrefixOf_append_self : ∀ (p t : List Char), p.isPrefixOf (p ++ t) = true
  | [], _ => by simp [List.isPrefixOf]
  | c :: p, t => by simp [List.isPrefixOf, isPrefixOf_append_self p t]

/-- Every rendered paragraph opens with the paragraph marker. -/
theorem buildParagraph_isPara (a b c : List Char) :
    isParaFrag (buildParagraph a b c) = true := by
  unfold isParaFrag buildParagraph
  simp only [List.append_assoc]
  exact isPrefixOf_append_self _ _

/-- A paragraph fragment is never the separator fragment. -/
theorem isPara_ne_hr (f : List Char) (h : isParaFrag f = true) :
    (f == hrFrag) = false := by
  rcases List.isPrefixOf_iff_prefix.mp h with ⟨t, ht⟩
  rw [beq_eq_false_iff_ne]
  intro he
  rw [← ht] at he
  rw [show ("    <p>".data : List Char) = [' ', ' ', ' ', ' ', '<', 'p', '>'] from rfl,
    show hrFrag = [' ', ' ', ' ', ' ', '<', 'h', 'r', '>', '\n'] from rfl] at he
  simp at he

/-- Block and separator counts and order in the specified fragment shape:
one paragraph per input block (in order), one separator per block except the
last. -/
theorem mergerSpec_counts :
    ∀ (paras : List (List Char)), (∀ p ∈ paras, isParaFrag p = true) →
      (mergerSpecFrags paras).countP isParaFrag = paras.length
      ∧ (mergerSpecFrags paras).countP (fun f => f == hrFrag) = paras.length - 1
      ∧ (mergerSpecFrags paras).filter isParaFrag = paras
  | [], _ => by simp [mergerSpecFrags]
  | [p], hp => by
    have hp0 : isParaFrag p = true := hp p (List.mem_singleton_self p)
    refine ⟨?_, ?_, ?_⟩ <;>
      simp [mergerSpecFrags, List.countP_cons, List.filter_cons, hp0,
        isPara_ne_hr p hp0, show isParaFrag nlFrag = false from rfl,
        show (nlFrag == hrFrag) = false from rfl]
  | p :: q :: ps, hp => by
    have hp0 : isParaFrag p = true := hp p (List.mem_cons_self p (q :: ps))
    have IH := mergerSpec_counts (q :: ps)
      (fun r hr => hp r (List.mem_cons_of_mem p hr))
    refine ⟨?_, ?_, ?_⟩ <;>
      simp [mergerSpecFrags, List.countP_cons, List.filter_cons, hp0,
        isPara_ne_hr p hp0, IH.1, IH.2.1, IH.2.2,
        show isParaFrag nlFrag = false from rfl,
        show isParaFrag hrFrag = false from rfl,
        show (nlFrag == hrFrag) = false from rfl,
        show (hrFrag == hrFrag) = true from rfl]

/-! ## Claims -/

/-- **C8.** For every language code (and any espeak oracle — in particular
one whose invocation would be fatal or failing, showing the subprocess is
not consulted), `generate_ipa` on empty input text returns the empty string
with no warnings, and its result does not depend on the oracle at all. -/
theorem c8_empty_text_no_subprocess (es es2 : ESpeak) (lang : List Char) :
    generate_ipa es [] lang = .ok ([], [])
    ∧ generate_ipa es [] lang = generate_ipa es2 [] lang := by
  constructor <;> rfl

/-- **C9.** The `<br>` fragment before the phonetic/secondary content is
emitted whenever the phonetic or the secondary text is non-empty,
independently of whether a bold primary line was rendered; in particular a
block with empty sanitized primary text but non-empty phonetic or secondary
text starts with the line-break fragment immediately after the opening
`<p>`. -/
theorem c9_br_unconditional_on_primary (c1 ipa l2 : List Char)
    (h : ipa ≠ [] ∨ l2 ≠ []) :
    buildParagraph c1 ipa l2 =
      "    <p>".data ++
        (if c1 = [] then [] else "<b>".data ++ c1 ++ "</b>".data) ++
        " \n        <br> ".data ++
        ((if ipa = [] then []
          else "<span class=\"ipa\">/".data ++ ipa ++ "/</span>".data) ++
         (if ipa ≠ [] ∧ l2 ≠ [] then " \n        <br> ".data else []) ++
         (if l2 = [] then [] else l2) ++ "</p>".data)
    ∧ (c1 = [] → "    <p> \n        <br> ".data <+: buildParagraph c1 ipa l2) := by
  have heq : buildParagraph c1 ipa l2 =
      "    <p>".data ++
        (if c1 = [] then [] else "<b>".data ++ c1 ++ "</b>".data) ++
        " \n        <br> ".data ++
        ((if ipa = [] then []
          else "<span class=\"ipa\">/".data ++ ipa ++ "/</span>".data) ++
         (if ipa ≠ [] ∧ l2 ≠ [] then " \n        <br> ".data else []) ++
         (if l2 = [] then [] else l2) ++ "</p>".data) := by
    unfold buildParagraph
    rw [if_pos h]
    simp [List.append_assoc]
  refine ⟨heq, ?_⟩
  intro hc1
  rw [heq, hc1]
  rw [show ("    <p> \n        <br> ".data : List Char) =
    "    <p>".data ++ " \n        <br> ".data from rfl]
  simp [List.append_assoc]

/-- **C9 witness.** -/
theorem c9_witness :
    ((("x".data : List Char) ≠ [] ∨ (([] : List Char) ≠ []))
      ∧ (buildParagraph [] "x".data [] =
          "    <p>".data ++
            (if ([] : List Char) = [] then []
             else "<b>".data ++ [] ++ "</b>".data) ++
            " \n        <br> ".data ++
            ((if ("x".data : List Char) = [] then []
              else "<span class=\"ipa\">/".data ++ "x".data ++ "/</span>".data) ++
             (if ("x".data : List Char) ≠ [] ∧ (([] : List Char) ≠ [])
              then " \n        <br> ".data else []) ++
             (if ([] : List Char) = [] then [] else ([] : List Char)) ++
             "</p>".data)
        ∧ (([] : List Char) = [] →
            "    <p> \n        <br> ".data <+: buildParagraph [] "x".data []))) :=
  ⟨Or.inl (by decide), c9_br_unconditional_on_primary [] "x".data []
    (Or.inl (by decide))⟩

/-- **C1 (amended).** When the two extracted cue sequences have unequal
lengths (the secondary content being non-empty, so no placeholder sequence
is substituted), the merge terminates the run fatally with the fixed
mismatch message — producing no document output (`.error` carries only the
stderr message) — but that message does not name the two cue counts: it is
a constant string with no digits at all (see the C1 counterexample). -/
theorem c1_mismatch_fatal_fixed_message (es : ESpeak)
    (content1 content2 l1 l2 : List Char) (h2 : content2 ≠ [])
    (hlen : (cue_findall content1).length ≠ (cue_findall content2).length) :
    merge_vtt_to_html es content1 content2 l1 l2 = .error mismatchMsg := by
  unfold merge_vtt_to_html cues2_of
  simp [h2, hlen]

/-- **C1 witness** (for the amended claim). -/
theorem c1_witness :
    merge_vtt_to_html (fun _ _ => .ok [])
      "00:00:01.000 --> x\na\n\n00:00:02.000 --> y\nb".data
      "00:00:01.000 --> x\nc".data "da".data "en".data = .error mismatchMsg :=
  c1_mismatch_fatal_fixed_message _ _ _ _ _ (by decide) (by decide)

/-- **C1 counterexample.** The claim says the fatal mismatch error names
both cue counts.  On a concrete run with 2 primary and 1 secondary cues the
merge does terminate fatally before emitting any output, but the message
names neither count — indeed it contains no digit characters at all
(naming a count is read as: the count's decimal representation occurs in
the message). -/
theorem c1_counterexample :
    merge_vtt_to_html (fun _ _ => .ok [])
        "00:00:01.000 --> x\na\n\n00:00:02.000 --> y\nb".data
        "00:00:01.000 --> x\nc".data "da".data "en".data = .error mismatchMsg
    ∧ (cue_findall "00:00:01.000 --> x\na\n\n00:00:02.000 --> y\nb".data).length = 2
    ∧ (cue_findall "00:00:01.000 --> x\nc".data).length = 1
    ∧ ¬ (Nat.repr 2).data <:+: mismatchMsg
    ∧ ¬ (Nat.repr 1).data <:+: mismatchMsg
    ∧ mismatchMsg.all (fun c => !c.isDigit) = true := by
  refine ⟨rfl, by decide, by decide, by decide, by decide, by decide⟩

/-- **C2.** For cue sequences of equal length `N ≥ 1` and any per-cue
phonemizer results (any oracle that never reports the binary missing — a
missing binary produces no "results" but a fatal abort), the merge loop
succeeds and produces exactly the specified shape: `N` paragraph blocks in
original index order and `N − 1` separator fragments, a separator following
every block except the last (`mergerSpecFrags` is that shape by
definition), as the count and order corollaries state. -/
theorem c2_blocks_and_separators (es : ESpeak) (l1 : List Char)
    (cues1 cues2 : List (List Char × List Char))
    (hlen : cues2.length = cues1.length) (hN : 1 ≤ cues1.length)
    (hes : ∀ pr ∈ cues1.zip cues2, clean_text pr.1.2 ≠ [] →
      es l1 (clean_text pr.1.2) ≠ .notFound) :
    renderLoop es l1 (cues1.zip cues2) 0 cues1.length =
      .ok (mergerSpecFrags ((cues1.zip cues2).map (paraOf es l1)),
           loopWarns es l1 (cues1.zip cues2))
    ∧ ((cues1.zip cues2).map (paraOf es l1)).length = cues1.length
    ∧ (mergerSpecFrags ((cues1.zip cues2).map (paraOf es l1))).countP
        isParaFrag = cues1.length
    ∧ (mergerSpecFrags ((cues1.zip cues2).map (paraOf es l1))).countP
        (fun f => f == hrFrag) = cues1.length - 1
    ∧ (mergerSpecFrags ((cues1.zip cues2).map (paraOf es l1))).filter
        isParaFrag = (cues1.zip cues2).map (paraOf es l1) := by
  have hzlen : (cues1.zip cues2).length = cues1.length := by
    simp [List.length_zip, hlen]
  have hmap : ∀ p ∈ (cues1.zip cues2).map (paraOf es l1), isParaFrag p = true := by
    intro p hp
    rcases List.mem_map.mp hp with ⟨pr, _, rfl⟩
    exact buildParagraph_isPara _ _ _
  have hcounts := mergerSpec_counts _ hmap
  refine ⟨?_, ?_, ?_, ?_, hcounts.2.2⟩
  · rw [renderLoop_ok es l1 _ hes 0 cues1.length,
      loopFrags_shape es l1 _ 0 cues1.length (by simp [hzlen])]
  · simp [hzlen]
  · rw [hcounts.1]; simp [hzlen]
  · rw [hcounts.2.1]; simp [hzlen]

/-- Concrete primary cue list for the C2 witness. -/
def c2wCues1 : List (List Char × List Char) :=
  [("g1".data, "s1 one".data), ("g2".data, "s2 two".data)]

/-- Concrete secondary cue list for the C2 witness. -/
def c2wCues2 : List (List Char × List Char) :=
  [("h1".data, "t1 one".data), ("h2".data, "t2 two".data)]

/-- Concrete always-succeeding espeak oracle for the C2 witness. -/
def c2wEs : ESpeak := fun _ _ => .ok "ipa".data

/-- **C2 witness.** -/
theorem c2_witness :
    c2wCues2.length = c2wCues1.length
    ∧ 1 ≤ c2wCues1.length
    ∧ renderLoop c2wEs "da".data (c2wCues1.zip c2wCues2) 0 c2wCues1.length =
        .ok (mergerSpecFrags ((c2wCues1.zip c2wCues2).map (paraOf c2wEs "da".data)),
             loopWarns c2wEs "da".data (c2wCues1.zip c2wCues2)) :=
  ⟨by decide, by decide,
    (c2_blocks_and_separators c2wEs "da".data c2wCues1 c2wCues2
      (by decide) (by decide) (by decide)).1⟩

/-- Zipping a list with a same-length replicated constant pairs every
element with that constant. -/
theorem zip_replicate_self {α β : Type} :
    ∀ (l : List α) (x : β), l.zip (List.replicate l.length x) =
      l.map (fun a => (a, x))
  | [], _ => rfl
  | a :: l, x => by
    simp [List.replicate, zip_replicate_self l x]

/-- Each pair's warnings embed into the loop's accumulated warnings. -/
theorem loopWarns_mem (es : ESpeak) (l1 : List Char) :
    ∀ (pairs : List ((List Char × List Char) × (List Char × List Char)))
      (pr : (List Char × List Char) × (List Char × List Char)),
      pr ∈ pairs → ∀ w ∈ warnsOf es l1 (clean_text pr.1.2),
      w ∈ loopWarns es l1 pairs
  | [], _, h => absurd h (List.not_mem_nil _)
  | q :: rest, pr, h => by
    intro w hw
    rcases List.mem_cons.mp h with rfl | hmem
    · exact List.mem_append_left _ hw
    · exact List.mem_append_right _ (loopWarns_mem es l1 rest pr hmem w hw)

/-- When every primary text sanitizes to empty, the loop never consults the
espeak oracle: runs under any two oracles coincide. -/
theorem renderLoop_indep (es es2 : ESpeak) (l1 : List Char) :
    ∀ (pairs : List ((List Char × List Char) × (List Char × List Char))),
      (∀ pr ∈ pairs, clean_text pr.1.2 = []) →
      ∀ i count, renderLoop es l1 pairs i count = renderLoop es2 l1 pairs i count
  | [], _, _, _ => rfl
  | pr :: rest, hall, i, count => by
    have h0 : clean_text pr.1.2 = [] := hall pr (List.mem_cons_self pr rest)
    have hrest := renderLoop_indep es es2 l1 rest
      (fun q hq => hall q (List.mem_cons_of_mem pr hq)) (i + 1) count
    simp [renderLoop, h0, generate_ipa, hrest]

/-- The all-missing espeak oracle (the binary is not installed). -/
def espeakMissing : ESpeak := fun _ _ => .notFound

/-- With the espeak binary missing, the loop aborts fatally as soon as some
pair's sanitized primary text is non-empty. -/
theorem renderLoop_notFound (l1 : List Char) :
    ∀ (pairs : List ((List Char × List Char) × (List Char × List Char))),
      (∃ pr ∈ pairs, clean_text pr.1.2 ≠ []) →
      ∀ i count, renderLoop espeakMissing l1 pairs i count =
        .error espeakNotFoundMsg
  | [], h, _, _ => absurd h (by simp)
  | pr :: rest, h, i, count => by
    by_cases h0 : clean_text pr.1.2 = []
    · have hrest : ∃ q ∈ rest, clean_text q.1.2 ≠ [] := by
        rcases h with ⟨q, hq, hne⟩
        rcases List.mem_cons.mp hq with rfl | hmem
        · exact absurd h0 hne
        · exact ⟨q, hmem, hne⟩
      simp [renderLoop, h0, generate_ipa,
        renderLoop_notFound l1 rest hrest (i + 1) count]
    · simp [renderLoop, generate_ipa, h0, espeakMissing]

/-- An element of the first list appears as a left component in the zip when
the second list is at least as long. -/
theorem mem_zip_left {α β : Type} :
    ∀ (l1 : List α) (l2 : List β) (a : α), a ∈ l1 → l1.length ≤ l2.length →
      ∃ b, (a, b) ∈ l1.zip l2
  | [], _, a, ha, _ => absurd ha (List.not_mem_nil a)
  | x :: xs, [], a, _, hlen => by simp at hlen
  | x :: xs, y :: ys, a, ha, hlen => by
    rcases List.mem_cons.mp ha with rfl | hmem
    · exact ⟨y, List.mem_cons_self _ _⟩
    · rcases mem_zip_left xs ys a hmem (by simpa using hlen) with ⟨b, hb⟩
      exact ⟨b, List.mem_cons_of_mem _ hb⟩

/-- **C4.** When the secondary track is absent (content `[]`), the merge
substitutes a placeholder sequence of empty cues of the primary's length, so
the equal-length check passes, the document renders successfully, and every
block is built with an empty secondary text: the second conjunct shows such
a block omits the secondary line entirely (no second `<br>`, no secondary
text — only the optional bold primary and optional phonetic span). -/
theorem c4_secondary_absent (es : ESpeak) (content1 l1 l2 : List Char)
    (hes : ∀ cue ∈ cue_findall content1, clean_text cue.2 ≠ [] →
      es l1 (clean_text cue.2) ≠ .notFound) :
    merge_vtt_to_html es content1 [] l1 l2 =
      .ok (htmlTemplate l1 l2 (mergerSpecFrags ((cue_findall content1).map
            (fun cue => buildParagraph (clean_text cue.2)
              (ipaOf es l1 (clean_text cue.2)) []))),
           loopWarns es l1 ((cue_findall content1).zip
             (List.replicate (cue_findall content1).length ([], []))))
    ∧ (∀ a b : List Char, buildParagraph a b [] =
        "    <p>".data ++
          (if a = [] then [] else "<b>".data ++ a ++ "</b>".data) ++
          (if b = [] then [] else " \n        <br> ".data ++
            "<span class=\"ipa\">/".data ++ b ++ "/</span>".data) ++
          "</p>".data) := by
  constructor
  · have hz : (cue_findall content1).zip
        (List.replicate (cue_findall content1).length
          (([] : List Char), ([] : List Char))) =
        (cue_findall content1).map (fun c => (c, ([], []))) :=
      zip_replicate_self _ _
    have hes2 : ∀ pr ∈ (cue_findall content1).zip
        (List.replicate (cue_findall content1).length
          (([] : List Char), ([] : List Char))),
        clean_text pr.1.2 ≠ [] → es l1 (clean_text pr.1.2) ≠ .notFound :=
      fun pr hpr => hes pr.1 (List.of_mem_zip hpr).1
    have hzlen : ((cue_findall content1).zip
        (List.replicate (cue_findall content1).length
          (([] : List Char), ([] : List Char)))).length =
        (cue_findall content1).length := by
      simp [List.length_zip]
    have hcnil : clean_text ([] : List Char) = [] := rfl
    unfold merge_vtt_to_html cues2_of
    rw [if_pos (show ([] : List Char) = [] from rfl)]
    rw [if_neg (by simp)]
    rw [renderLoop_ok es l1 _ hes2 0 (cue_findall content1).length,
      loopFrags_shape es l1 _ 0 (cue_findall content1).length
        (by rw [hzlen]; omega)]
    rw [hz, List.map_map]
    have hfun : (paraOf es l1 ∘ fun c : List Char × List Char =>
        (c, (([] : List Char), ([] : List Char)))) =
        fun cue => buildParagraph (clean_text cue.2)
          (ipaOf es l1 (clean_text cue.2)) [] := by
      funext c
      simp [paraOf, Function.comp, hcnil]
    rw [hfun]
  · intro a b
    unfold buildParagraph
    by_cases hb : b = [] <;> simp [hb, List.append_assoc]

/-- Concrete one-cue primary content for the C4 witness. -/
def c4wContent1 : List Char := "00:00:01.000 --> x\nhello".data

/-- Concrete always-succeeding espeak oracle for the C4 witness. -/
def c4wEs : ESpeak := fun _ _ => .ok "ipa".data

/-- **C4 witness.** -/
theorem c4_witness :
    merge_vtt_to_html c4wEs c4wContent1 [] "da".data "en".data =
      .ok (htmlTemplate "da".data "en".data
            (mergerSpecFrags ((cue_findall c4wContent1).map
              (fun cue => buildParagraph (clean_text cue.2)
                (ipaOf c4wEs "da".data (clean_text cue.2)) []))),
           loopWarns c4wEs "da".data ((cue_findall c4wContent1).zip
             (List.replicate (cue_findall c4wContent1).length ([], [])))) :=
  (c4_secondary_absent c4wEs c4wContent1 "da".data "en".data (by decide)).1

/-- **C5.** If the espeak invocation fails (non-zero exit) exactly for the
sanitized primary text `tj` of some cue, and succeeds with a non-empty
normalized transcription on every other text, then: the whole merge still
succeeds (`.ok`) with the usual block shape; the collected stderr warnings
contain the warning for that failure, and that warning names the language
code (`l1` occurs in it); every block whose primary sanitized text is `tj`
is built with the empty phonetic string — and a block built with the empty
phonetic string contains no phonetic line at all (last conjunct) — while
every other block whose espeak invocation actually ran gets a non-empty
phonetic string. -/
theorem c5_per_cue_failure_is_local (es : ESpeak)
    (content1 content2 l1 l2 tj err : List Char)
    (hlen : (cues2_of content1 content2).length = (cue_findall content1).length)
    (htj : tj ≠ [])
    (hfail : es l1 tj = .callFailed err)
    (hok : ∀ t, t ≠ tj → ∃ out, es l1 t = .ok out ∧ normalizeIpa out ≠ [])
    (hmem : ∃ pr ∈ (cue_findall content1).zip (cues2_of content1 content2),
      clean_text pr.1.2 = tj) :
    (merge_vtt_to_html es content1 content2 l1 l2 =
      .ok (htmlTemplate l1 l2 (mergerSpecFrags
            (((cue_findall content1).zip (cues2_of content1 content2)).map
              (paraOf es l1))),
           loopWarns es l1
             ((cue_findall content1).zip (cues2_of content1 content2)))
      ∧ espeakWarnMsg l1 err ∈ loopWarns es l1
          ((cue_findall content1).zip (cues2_of content1 content2)))
    ∧ l1 <:+: espeakWarnMsg l1 err
    ∧ (∀ pr ∈ (cue_findall content1).zip (cues2_of content1 content2),
        clean_text pr.1.2 = tj →
        paraOf es l1 pr = buildParagraph tj [] (clean_text pr.2.2))
    ∧ (∀ pr ∈ (cue_findall content1).zip (cues2_of content1 content2),
        clean_text pr.1.2 ≠ tj → clean_text pr.1.2 ≠ [] →
        ipaOf es l1 (clean_text pr.1.2) ≠ [])
    ∧ (∀ a c : List Char, buildParagraph a [] c =
        "    <p>".data ++
          (if a = [] then [] else "<b>".data ++ a ++ "</b>".data) ++
          (if c = [] then [] else " \n        <br> ".data ++ c) ++
          "</p>".data) := by
  have hes : ∀ pr ∈ (cue_findall content1).zip (cues2_of content1 content2),
      clean_text pr.1.2 ≠ [] → es l1 (clean_text pr.1.2) ≠ .notFound := by
    intro pr _ _
    by_cases he : clean_text pr.1.2 = tj
    · rw [he, hfail]; simp
    · rcases hok _ he with ⟨out, ho, _⟩
      rw [ho]; simp
  have hzlen : ((cue_findall content1).zip
      (cues2_of content1 content2)).length =
      (cue_findall content1).length := by
    simp [List.length_zip, hlen]
  have hipaj : ipaOf es l1 tj = [] := by
    unfold ipaOf
    rw [if_neg htj, hfail]
  refine ⟨⟨?_, ?_⟩, ?_, ?_, ?_, ?_⟩
  · unfold merge_vtt_to_html
    rw [if_neg (by simp [hlen])]
    rw [renderLoop_ok es l1 _ hes 0 (cue_findall content1).length,
      loopFrags_shape es l1 _ 0 (cue_findall content1).length
        (by rw [hzlen]; omega)]
  · rcases hmem with ⟨pr, hpr, hcl⟩
    refine loopWarns_mem es l1 _ pr hpr (espeakWarnMsg l1 err) ?_
    unfold warnsOf
    rw [hcl, if_neg htj, hfail]
    exact List.mem_singleton_self _
  · have he : espeakWarnMsg l1 err =
        "Warning: eSpeak failed for language \x27".data ++ l1 ++
          ("\x27. Output: ".data ++ pyStrip err ++ "\n".data) := by
      simp [espeakWarnMsg, List.append_assoc]
    rw [he]
    exact List.infix_append _ _ _
  · intro pr _ hcl
    unfold paraOf
    rw [hcl, hipaj]
  · intro pr _ hne hnn
    unfold ipaOf
    rw [if_neg hnn]
    rcases hok _ hne with ⟨out, ho, hnorm⟩
    rw [ho]
    exact hnorm
  · intro a c
    unfold buildParagraph
    by_cases hc : c = [] <;> simp [hc, List.append_assoc]

/-- Concrete two-cue primary content for the C5 witness: the second cue's
sanitized text is `bad`, on which the oracle fails. -/
def c5wContent1 : List Char :=
  "00:00:01.000 --> x\ngood\n\n00:00:02.000 --> y\nbad".data

/-- Concrete two-cue secondary content for the C5 witness. -/
def c5wContent2 : List Char :=
  "00:00:01.000 --> x\nfine\n\n00:00:02.000 --> y\nalso".data

/-- Oracle for the C5 witness: non-zero exit exactly on input text `bad`. -/
def c5wEs : ESpeak := fun _ t =>
  if t = "bad".data then .callFailed "boom".data else .ok "ipa".data

/-- **C5 witness.** -/
theorem c5_witness :
    merge_vtt_to_html c5wEs c5wContent1 c5wContent2 "da".data "en".data =
      .ok (htmlTemplate "da".data "en".data (mergerSpecFrags
            (((cue_findall c5wContent1).zip
                (cues2_of c5wContent1 c5wContent2)).map (paraOf c5wEs "da".data))),
           loopWarns c5wEs "da".data
             ((cue_findall c5wContent1).zip (cues2_of c5wContent1 c5wContent2)))
    ∧ espeakWarnMsg "da".data "boom".data ∈ loopWarns c5wEs "da".data
        ((cue_findall c5wContent1).zip (cues2_of c5wContent1 c5wContent2)) :=
  (c5_per_cue_failure_is_local c5wEs c5wContent1 c5wContent2 "da".data "en".data
    "bad".data "boom".data (by decide) (by decide) (by decide)
    (fun t ht => ⟨"ipa".data, by simp [c5wEs, ht], by decide⟩)
    (by decide)).1

/-- **C10.** With the espeak binary missing (`espeakMissing`): if every
primary cue's sanitized text is empty, the external phonemizer is never
invoked — the run's outcome is the same under every oracle — and the run
completes successfully, leaving the missing binary undetected; the fatal
missing-phonemizer termination happens exactly when some cue with non-empty
sanitized primary text is processed (second conjunct). -/
theorem c10_missing_phonemizer_latent (content1 content2 l1 l2 : List Char)
    (hlen : (cues2_of content1 content2).length = (cue_findall content1).length) :
    ((∀ cue ∈ cue_findall content1, clean_text cue.2 = []) →
      (∃ html W, merge_vtt_to_html espeakMissing content1 content2 l1 l2 =
        .ok (html, W))
      ∧ ∀ es : ESpeak, merge_vtt_to_html es content1 content2 l1 l2 =
          merge_vtt_to_html espeakMissing content1 content2 l1 l2)
    ∧ ((∃ cue ∈ cue_findall content1, clean_text cue.2 ≠ []) →
      merge_vtt_to_html espeakMissing content1 content2 l1 l2 =
        .error espeakNotFoundMsg) := by
  constructor
  · intro hall
    have hz : ∀ pr ∈ (cue_findall content1).zip (cues2_of content1 content2),
        clean_text pr.1.2 = [] :=
      fun pr hpr => hall pr.1 (List.of_mem_zip hpr).1
    constructor
    · have hes : ∀ pr ∈ (cue_findall content1).zip (cues2_of content1 content2),
          clean_text pr.1.2 ≠ [] → espeakMissing l1 (clean_text pr.1.2) ≠ .notFound :=
        fun pr hpr hne => absurd (hz pr hpr) hne
      have hres : merge_vtt_to_html espeakMissing content1 content2 l1 l2 =
          .ok (htmlTemplate l1 l2 (loopFrags espeakMissing l1
                ((cue_findall content1).zip (cues2_of content1 content2)) 0
                (cue_findall content1).length),
               loopWarns espeakMissing l1
                ((cue_findall content1).zip (cues2_of content1 content2))) := by
        unfold merge_vtt_to_html
        rw [if_neg (by simp [hlen])]
        rw [renderLoop_ok espeakMissing l1 _ hes 0 (cue_findall content1).length]
      exact ⟨_, _, hres⟩
    · intro es
      simp only [merge_vtt_to_html]
      rw [renderLoop_indep es espeakMissing l1 _ hz 0 (cue_findall content1).length]
  · intro hsome
    rcases hsome with ⟨cue, hcue, hne⟩
    rcases mem_zip_left (cue_findall content1) (cues2_of content1 content2) cue
        hcue (le_of_eq hlen.symm) with ⟨b, hb⟩
    unfold merge_vtt_to_html
    rw [if_neg (by simp [hlen])]
    rw [renderLoop_notFound l1 _ ⟨(cue, b), hb, hne⟩ 0 (cue_findall content1).length]

/-- Concrete primary content for the C10 witness: one cue whose raw text is
a bare inline tag, so its sanitized text is empty. -/
def c10wContent1 : List Char := "00:00:01.000 --> x\n<i>".data

/-- **C10 witness.** -/
theorem c10_witness :
    ∃ html W, merge_vtt_to_html espeakMissing c10wContent1 [] "da".data "en".data =
      .ok (html, W) :=
  ((c10_missing_phonemizer_latent c10wContent1 [] "da".data "en".data
    (by decide)).1 (by decide)).1

/-- **C6.** For every block sequence, the renderer emits the complete
document shell: the output decomposes as the fixed parameterized opening
shell, a body, and the fixed closing shell, where the body is the joined
(and stripped) fragments — or, for the empty block sequence, the single
explanatory placeholder paragraph.  The parameterization facts are explicit:
the `lang` attribute carries the secondary code, and the title and heading
carry both codes uppercased. -/
theorem c6_document_shell (l1 l2 : List Char) (frags : List (List Char)) :
    (∃ body, htmlTemplate l1 l2 frags =
        docShellOpen l1 l2 ++ body ++ docShellClose
      ∧ (frags = [] → body = noCuesMsg)
      ∧ (frags ≠ [] → body = pyStrip frags.flatten))
    ∧ ("<html lang=\"".data ++ l2 ++ "\">".data) <:+: htmlTemplate l1 l2 frags
    ∧ docTitle l1 l2 <:+: htmlTemplate l1 l2 frags
    ∧ ("<h1>Parallel Transcript: ".data ++ pyUpper l1 ++
        " in Bold, IPA, and ".data ++ pyUpper l2 ++ "</h1>".data) <:+:
        htmlTemplate l1 l2 frags
    ∧ docShellClose <:+ htmlTemplate l1 l2 frags := by
  have hopen : docShellOpen l1 l2 <+: htmlTemplate l1 l2 frags :=
    ⟨(if frags = [] then noCuesMsg else pyStrip frags.flatten) ++ docShellClose,
      by simp [htmlTemplate, List.append_assoc]⟩
  refine ⟨?_, ?_, ?_, ?_, ?_⟩
  · refine ⟨if frags = [] then noCuesMsg else pyStrip frags.flatten, rfl, ?_, ?_⟩
    · intro h; rw [if_pos h]
    · intro h; rw [if_neg h]
  · have e : docHead l2 = "<!DOCTYPE html>\n".data ++
        ("<html lang=\"".data ++ l2 ++ "\">".data) ++
        "\n<head>\n    <meta charset=\"UTF-8\">\n    <meta name=\"viewport\" content=\"width=device-width, initial-scale=1.0\">\n    ".data := by
      unfold docHead
      rw [show ("<!DOCTYPE html>\n<html lang=\"".data : List Char) =
          "<!DOCTYPE html>\n".data ++ "<html lang=\"".data from by decide,
        show ("\">\n<head>\n    <meta charset=\"UTF-8\">\n    <meta name=\"viewport\" content=\"width=device-width, initial-scale=1.0\">\n    ".data : List Char) =
          "\">".data ++ "\n<head>\n    <meta charset=\"UTF-8\">\n    <meta name=\"viewport\" content=\"width=device-width, initial-scale=1.0\">\n    ".data from by decide]
      simp [docHead, List.append_assoc]
    have h1 : ("<html lang=\"".data ++ l2 ++ "\">".data) <:+: docHead l2 := by
      rw [e]; exact List.infix_append _ _ _
    have h2 : docHead l2 <+: docShellOpen l1 l2 :=
      ⟨docTitle l1 l2 ++ docStyleBody ++ docH1 l1 l2,
        by simp [docShellOpen, List.append_assoc]⟩
    exact h1.trans ((h2.trans hopen).isInfix)
  · have h1 : docTitle l1 l2 <:+: docShellOpen l1 l2 := by
      rw [show docShellOpen l1 l2 = docHead l2 ++ docTitle l1 l2 ++
          (docStyleBody ++ docH1 l1 l2) from by
        simp [docShellOpen, List.append_assoc]]
      exact List.infix_append _ _ _
    exact h1.trans hopen.isInfix
  · have h1 : ("<h1>Parallel Transcript: ".data ++ pyUpper l1 ++
        " in Bold, IPA, and ".data ++ pyUpper l2 ++ "</h1>".data) <+:
        docH1 l1 l2 :=
      ⟨"\n".data, by simp [docH1, List.append_assoc]⟩
    have h2 : docH1 l1 l2 <:+ docShellOpen l1 l2 :=
      ⟨docHead l2 ++ docTitle l1 l2 ++ docStyleBody,
        by simp [docShellOpen, List.append_assoc]⟩
    exact h1.isInfix.trans (h2.isInfix.trans hopen.isInfix)
  · exact ⟨docShellOpen l1 l2 ++
      (if frags = [] then noCuesMsg else pyStrip frags.flatten),
      by simp [htmlTemplate, List.append_assoc]⟩

/-! ## Sanitizer algebra (for C3) -/

/-- Without a `>`, the search for a closing bracket fails. -/
theorem findGt_eq_none : ∀ {l : List Char}, '>' ∉ l → findGt l = none
  | [], _ => rfl
  | c :: rest, h => by
    have hc : c ≠ '>' := fun he => h (he ▸ List.mem_cons_self c rest)
    have hrest : '>' ∉ rest := fun hm => h (List.mem_cons_of_mem c hm)
    by_cases hn : c = '\n' <;> simp [findGt, hc, hn, findGt_eq_none hrest]

/-- Without a `>`, there is no tag match. -/
theorem hasMatch_eq_false : ∀ {l : List Char}, '>' ∉ l → hasMatch l = false
  | [], _ => rfl
  | c :: rest, h => by
    have hrest : '>' ∉ rest := fun hm => h (List.mem_cons_of_mem c hm)
    by_cases hc : c = '<' <;>
      simp [hasMatch, hc, findGt_eq_none hrest, hasMatch_eq_false hrest]

/-- A successful closing-bracket search survives appending on the right. -/
theorem findGt_append_some :
    ∀ {l r : List Char} (t : List Char), findGt l = some r →
      findGt (l ++ t) = some (r ++ t)
  | [], _, _, h => by simp [findGt] at h
  | c :: rest, r, t, h => by
    by_cases hg : c = '>'
    · rw [findGt, if_pos hg] at h
      cases h
      simp [findGt, hg]
    · by_cases hn : c = '\n'
      · rw [findGt, if_pos hn] at h; · simp [findGt, hg, hn] at h ⊢
      · rw [findGt, if_neg hg, if_neg hn] at h
        simp [findGt, hg, hn, findGt_append_some t h]

/-- A match on the left part gives a match on the concatenation. -/
theorem hasMatch_append_left :
    ∀ {a : List Char} (b : List Char), hasMatch a = true →
      hasMatch (a ++ b) = true
  | [], _, h => by simp [hasMatch] at h
  | c :: a, b, h => by
    by_cases hc : c = '<'
    · rw [hasMatch, if_pos hc] at h
      rcases Bool.or_eq_true_iff.mp h with hg | ha
    -- the closing bracket is found inside `a`, or the match is further right
      · rcases Option.isSome_iff_exists.mp hg with ⟨r, hr⟩
        simp [hasMatch, hc, findGt_append_some b hr]
      · simp [hasMatch, hc, hasMatch_append_left b ha]
    · rw [hasMatch, if_neg hc] at h
      simp [hasMatch, hc, hasMatch_append_left b h]

/-- A match on the right part gives a match on the concatenation. -/
theorem hasMatch_append_right :
    ∀ (a : List Char) {b : List Char}, hasMatch b = true →
      hasMatch (a ++ b) = true
  | [], _, h => h
  | c :: a, b, h => by
    by_cases hc : c = '<' <;>
      simp [hasMatch, hc, hasMatch_append_right a h]

/-- Matchlessness is inherited by both halves of a concatenation. -/
theorem hasMatch_append_false {a b : List Char}
    (h : hasMatch (a ++ b) = false) :
    hasMatch a = false ∧ hasMatch b = false := by
  constructor
  · cases ha : hasMatch a with
    | false => rfl
    | true => rw [hasMatch_append_left b ha] at h; cases h
  · cases hb : hasMatch b with
    | false => rfl
    | true => rw [hasMatch_append_right a hb] at h; cases h

/-- Without a `>`, the closing-bracket search dies at the first newline. -/
theorem findGt_append_newline :
    ∀ {p : List Char} (t : List Char), '>' ∉ p →
      findGt (p ++ '\n' :: t) = none
  | [], t, _ => by simp [findGt]
  | c :: p, t, h => by
    have hc : c ≠ '>' := fun he => h (he ▸ List.mem_cons_self c p)
    have hp : '>' ∉ p := fun hm => h (List.mem_cons_of_mem c hm)
    by_cases hn : c = '\n' <;>
      simp [findGt, hc, hn, findGt_append_newline t hp]

/-- A bracketless region ending in a newline contributes no match. -/
theorem hasMatch_append_newline :
    ∀ {p : List Char} (t : List Char), '>' ∉ p →
      hasMatch (p ++ '\n' :: t) = hasMatch t
  | [], t, _ => by simp [hasMatch]
  | c :: p, t, h => by
    have hp : '>' ∉ p := fun hm => h (List.mem_cons_of_mem c hm)
    by_cases hc : c = '<' <;>
      simp [hasMatch, hc, findGt_append_newline t hp,
        hasMatch_append_newline t hp]

/-- The scanner's output never contains a tag match (in either state,
provided the pending buffer holds no `>`). -/
theorem hasMatch_removeTagsAux :
    ∀ (l : List Char),
      hasMatch (removeTagsAux none l) = false
      ∧ ∀ buf : List Char, '>' ∉ buf →
          hasMatch (removeTagsAux (some buf) l) = false
  | [] => by
    refine ⟨rfl, fun buf hb => ?_⟩
    refine hasMatch_eq_false ?_
    intro hm
    rcases List.mem_cons.mp hm with he | hm2
    · cases he
    · exact hb (List.mem_reverse.mp hm2)
  | c :: rest => by
    have ih := hasMatch_removeTagsAux rest
    constructor
    · by_cases hc : c = '<'
      · rw [removeTagsAux, if_pos hc]
        exact ih.2 [] (List.not_mem_nil _)
      · rw [removeTagsAux, if_neg hc]
        simp [hasMatch, hc, ih.1]
    · intro buf hb
      by_cases hg : c = '>'
      · rw [removeTagsAux, if_pos hg]
        exact ih.1
      · by_cases hn : c = '\n'
        · rw [removeTagsAux, if_neg hg, if_pos hn]
          have hbr : '>' ∉ buf.reverse := fun hm => hb (List.mem_reverse.mp hm)
          rw [show ('<' :: buf.reverse ++ '\n' :: removeTagsAux none rest) =
            '<' :: (buf.reverse ++ '\n' :: removeTagsAux none rest) from rfl]
          rw [hasMatch, if_pos rfl,
            findGt_append_newline _ hbr,
            hasMatch_append_newline _ hbr, ih.1]
          rfl
        · rw [removeTagsAux, if_neg hg, if_neg hn]
          refine ih.2 (c :: buf) ?_
          intro hm
          rcases List.mem_cons.mp hm with he | hm2
          · exact hg he.symm
          · exact hb hm2

/-- On a matchless input the scanner is the identity (and from the buffering
state it replays the pending region verbatim when no closing bracket
exists). -/
theorem removeTagsAux_id :
    ∀ (l : List Char),
      (hasMatch l = false → removeTagsAux none l = l)
      ∧ ∀ buf : List Char, findGt l = none → hasMatch l = false →
          removeTagsAux (some buf) l = '<' :: buf.reverse ++ l
  | [] => by
    refine ⟨fun _ => rfl, fun buf _ _ => ?_⟩
    simp [removeTagsAux]
  | c :: rest => by
    have ih := removeTagsAux_id rest
    constructor
    · intro hm
      by_cases hc : c = '<'
      · rw [hasMatch, if_pos hc, Bool.or_eq_false_iff] at hm
        rw [removeTagsAux, if_pos hc,
          ih.2 [] (Option.not_isSome_iff_eq_none.mp (by simp [hm.1])) hm.2]
        rw [hc]
        rfl
      · rw [hasMatch, if_neg hc] at hm
        rw [removeTagsAux, if_neg hc, ih.1 hm]
    · intro buf hg hm
      by_cases hgt : c = '>'
      · rw [findGt, if_pos hgt] at hg
        cases hg
      · by_cases hn : c = '\n'
        · rw [removeTagsAux, if_neg hgt, if_pos hn]
          rw [hasMatch, if_neg (show c ≠ '<' from by rw [hn]; decide)] at hm
          rw [ih.1 hm, hn]
        · rw [findGt, if_neg hgt, if_neg hn] at hg
          have hm2 : hasMatch rest = false := by
            by_cases hc : c = '<'
            · rw [hasMatch, if_pos hc, Bool.or_eq_false_iff] at hm
              exact hm.2
            · rwa [hasMatch, if_neg hc] at hm
          rw [removeTagsAux, if_neg hgt, if_neg hn,
            ih.2 (c :: buf) hg hm2]
          simp

/-- The sanitizer's output contains no tag match. -/
theorem hasMatch_clean_text (t : List Char) : hasMatch (clean_text t) = false :=
  (hasMatch_removeTagsAux (pyStrip t)).1

/-- `pyStrip` yields a prefix of a suffix of its input, so matchlessness is
inherited. -/
theorem hasMatch_pyStrip_false {t : List Char} (h : hasMatch t = false) :
    hasMatch (pyStrip t) = false := by
  have h1 : t.dropWhile pyWs <:+ t := List.dropWhile_suffix pyWs
  rcases h1 with ⟨a, ha⟩
  have hd : hasMatch (t.dropWhile pyWs) = false :=
    (hasMatch_append_false (ha ▸ h)).2
  have h2 : (t.dropWhile pyWs).reverse.dropWhile pyWs <:+
      (t.dropWhile pyWs).reverse := List.dropWhile_suffix pyWs
  rcases h2 with ⟨b, hb⟩
  have hsplit : t.dropWhile pyWs = pyStrip t ++ b.reverse := by
    have := congrArg List.reverse hb
    simpa [pyStrip, List.reverse_append] using this.symm
  exact (hasMatch_append_false (hsplit ▸ hd)).1

/-- **C3 (amended).** The code's sanitizer (strip first, then delete `<…>`
matches) is idempotent only up to a final trim: re-sanitizing a sanitized
string is the same as merely trimming it — deleting matches does nothing the
second time (and consequently the double sanitizer is itself idempotent),
but a first sanitization can leave fresh leading/trailing whitespace where a
tag was removed, so sanitize∘sanitize ≠ sanitize in general (see the C3
counterexample). -/
theorem c3_sanitize_twice_eq_strip (s : List Char) :
    clean_text (clean_text s) = pyStrip (clean_text s) := by
  have h1 : hasMatch (pyStrip (clean_text s)) = false :=
    hasMatch_pyStrip_false (hasMatch_clean_text s)
  exact (removeTagsAux_id (pyStrip (clean_text s))).1 h1

/-- **C3 counterexample.** The sanitizer is not idempotent as claimed: on
`"a <b>"` the first pass yields `"a "` (the tag is deleted after the strip,
exposing a trailing space) and the second pass yields `"a"`. -/
theorem c3_counterexample :
    clean_text (clean_text "a <b>".data) ≠ clean_text "a <b>".data
    ∧ clean_text "a <b>".data = "a ".data
    ∧ clean_text (clean_text "a <b>".data) = "a".data := by
  refine ⟨by decide, by decide, by decide⟩

/-! ## Well-formed timed-text inputs (for C7)

A well-formed input is a sequence of cues, each a timing-header line
(`HH:MM:SS.mmm --> <rest-of-line>`) followed by one or more non-empty text
lines, cues terminated by a blank line (here: separated by blank lines, the
last terminated by the end of the input). -/

/-- One well-formed cue: the nine timestamp digits, the rest of the header
line after `--> `, and the cue's text lines. -/
structure VttCue where
  d1 : Char
  d2 : Char
  d3 : Char
  d4 : Char
  d5 : Char
  d6 : Char
  d7 : Char
  d8 : Char
  d9 : Char
  tail : List Char
  lines : List (List Char)

/-- Cue text as it appears in the input: lines separated by newlines, no
trailing newline (the blank-line separator supplies it). -/
def joinLines : List (List Char) → List Char
  | [] => []
  | [l] => l
  | l :: ls => l ++ '\n' :: joinLines ls

/-- The timing-header capture of a cue: the whole header line including its
terminating newline. -/
def VttCue.headerRecord (c : VttCue) : List Char :=
  [c.d1, c.d2, ':', c.d3, c.d4, ':', c.d5, c.d6, '.', c.d7, c.d8, c.d9,
   ' ', '-', '-', '>', ' '] ++ c.tail ++ ['\n']

/-- The raw-text capture of a cue. -/
def VttCue.textRecord (c : VttCue) : List Char := joinLines c.lines

/-- The cue as it appears in the input. -/
def VttCue.render (c : VttCue) : List Char := c.headerRecord ++ c.textRecord

/-- The nine header positions hold digits. -/
def VttCue.wfDigits (c : VttCue) : Prop :=
  c.d1.isDigit = true ∧ c.d2.isDigit = true ∧ c.d3.isDigit = true
  ∧ c.d4.isDigit = true ∧ c.d5.isDigit = true ∧ c.d6.isDigit = true
  ∧ c.d7.isDigit = true ∧ c.d8.isDigit = true ∧ c.d9.isDigit = true

/-- Well-formedness of a cue: digit positions are digits, the header tail
stays on its line, and there is at least one text line, each non-empty and
newline-free. -/
def VttCue.WF (c : VttCue) : Prop :=
  c.wfDigits ∧ '\n' ∉ c.tail ∧ c.lines ≠ []
  ∧ ∀ l ∈ c.lines, l ≠ [] ∧ '\n' ∉ l

instance (c : VttCue) : Decidable c.WF := by
  unfold VttCue.WF VttCue.wfDigits
  infer_instance

/-- A well-formed input: the cues separated by blank lines, the last
terminated by the end of the input. -/
def vttRender : List VttCue → List Char
  | [] => []
  | [c] => c.render
  | c :: cs => c.render ++ '\n' :: '\n' :: vttRender cs

/-- The (timing-header, raw-text) records of a cue sequence. -/
def cueRecords (cues : List VttCue) : List (List Char × List Char) :=
  cues.map (fun c => (c.headerRecord, c.textRecord))

/-- A body region acceptable to the lazy group 2: no blank line inside and
no trailing newline (which would otherwise migrate into the capture). -/
def okBody : List Char → Bool
  | [] => true
  | [c] => c ≠ '\n'
  | c :: d :: rest => if c = '\n' ∧ d = '\n' then false else okBody (d :: rest)

/-- Group 2 stops exactly at a following blank line. -/
theorem takeBody_append :
    ∀ (t : List Char) (r : List Char), okBody t = true →
      takeBody (t ++ '\n' :: '\n' :: r) = (t, '\n' :: '\n' :: r)
  | [], r, _ => by simp [takeBody]
  | [c], r, h => by
    have hc : c ≠ '\n' := by simpa [okBody] using h
    simp [takeBody, hc]
  | c :: d :: rest, r, h => by
    have hcd : ¬ (c = '\n' ∧ d = '\n') := by
      by_cases hx : c = '\n' ∧ d = '\n' <;> simp [okBody, hx] at h ⊢
    have ht := takeBody_append (d :: rest) r (by
      by_cases hx : c = '\n' ∧ d = '\n'
      · exact absurd hx hcd
      · simpa [okBody, hx] using h)
    simp only [List.cons_append] at ht ⊢
    rw [takeBody]
    simp only [List.cons_append, List.head?_cons]
    rw [if_neg (by simpa using hcd)]
    simp [ht]

/-- Group 2 runs to the end of the input when no blank line follows. -/
theorem takeBody_all :
    ∀ (t : List Char), okBody t = true → takeBody t = (t, [])
  | [], _ => rfl
  | [c], _ => by simp [takeBody]
  | c :: d :: rest, h => by
    have hcd : ¬ (c = '\n' ∧ d = '\n') := by
      by_cases hx : c = '\n' ∧ d = '\n' <;> simp [okBody, hx] at h ⊢
    have ht := takeBody_all (d :: rest) (by
      by_cases hx : c = '\n' ∧ d = '\n'
      · exact absurd hx hcd
      · simpa [okBody, hx] using h)
    rw [takeBody]
    simp only [List.head?_cons]
    rw [if_neg (by simpa using hcd)]
    simp [ht]

/-- A newline-free line satisfies the body invariant. -/
theorem okBody_of_no_newline :
    ∀ (l : List Char), '\n' ∉ l → okBody l = true
  | [], _ => rfl
  | [c], h => by
    have : c ≠ '\n' := fun he => h (he ▸ List.mem_singleton_self c)
    simpa [okBody] using this
  | c :: d :: rest, h => by
    have hc : c ≠ '\n' := fun he => h (he ▸ List.mem_cons_self c (d :: rest))
    have hrest : '\n' ∉ d :: rest := fun hm => h (List.mem_cons_of_mem c hm)
    rw [okBody, if_neg (by simp [hc])]
    exact okBody_of_no_newline (d :: rest) hrest

/-- Prepending a newline-free line and its newline preserves the body
invariant when the remainder does not start with a newline. -/
theorem okBody_append_line :
    ∀ (l t : List Char), '\n' ∉ l → t ≠ [] → t.head? ≠ some '\n' →
      okBody t = true → okBody (l ++ '\n' :: t) = true
  | [], t, _, hne, hh, ht => by
    cases t with
    | nil => exact absurd rfl hne
    | cons d rest =>
      have hd : d ≠ '\n' := fun he => hh (by rw [he]; rfl)
      rw [List.nil_append, okBody, if_neg (by simp [hd])]
      exact ht
  | c :: l, t, h, hne, hh, ht => by
    have hc : c ≠ '\n' := fun he => h (he ▸ List.mem_cons_self c l)
    have hl : '\n' ∉ l := fun hm => h (List.mem_cons_of_mem c hm)
    have hrec := okBody_append_line l t hl hne hh ht
    cases l with
    | nil =>
      rw [List.cons_append, List.nil_append, okBody,
        if_neg (by simp [hc])]
      simpa using hrec
    | cons c2 l2 =>
      rw [List.cons_append, List.cons_append, okBody,
        if_neg (by simp [hc])]
      simpa using hrec

/-- The joined text of a non-empty first line is non-empty. -/
theorem joinLines_ne_nil :
    ∀ (l : List Char) (ls : List (List Char)), l ≠ [] →
      joinLines (l :: ls) ≠ []
  | l, [], h => by simpa [joinLines] using h
  | l, m :: ms, h => by
    cases l with
    | nil => exact absurd rfl h
    | cons c l2 => simp [joinLines]

/-- The joined text of a non-empty well-formed line list starts with the
first line's first character — never a newline. -/
theorem joinLines_head :
    ∀ (l : List Char) (ls : List (List Char)), l ≠ [] → '\n' ∉ l →
      (joinLines (l :: ls)).head? ≠ some '\n'
  | [], _, hne, _ => absurd rfl hne
  | c :: l, ls, _, h => by
    have hc : c ≠ '\n' := fun he => h (he ▸ List.mem_cons_self c l)
    cases ls with
    | nil => simpa [joinLines] using hc
    | cons m ms => simpa [joinLines] using hc

/-- The joined text of well-formed lines satisfies the body invariant. -/
theorem okBody_joinLines :
    ∀ (ls : List (List Char)), (∀ l ∈ ls, l ≠ [] ∧ '\n' ∉ l) →
      okBody (joinLines ls) = true
  | [], _ => rfl
  | [l], h => okBody_of_no_newline l (h l (List.mem_singleton_self l)).2
  | l :: m :: ls, h => by
    have hl := h l (List.mem_cons_self l (m :: ls))
    have hm := h m (List.mem_cons_of_mem l (List.mem_cons_self m ls))
    have hrest : ∀ x ∈ m :: ls, x ≠ [] ∧ '\n' ∉ x :=
      fun x hx => h x (List.mem_cons_of_mem l hx)
    rw [show joinLines (l :: m :: ls) = l ++ '\n' :: joinLines (m :: ls) from rfl]
    exact okBody_append_line l (joinLines (m :: ls)) hl.2
      (joinLines_ne_nil m ls hm.1)
      (joinLines_head m ls hm.1 hm.2) (okBody_joinLines (m :: ls) hrest)

/-- Group 1's lazy tail takes the rest of the header line, up to and
including the first newline. -/
theorem takeToNewline_append :
    ∀ (tl r : List Char), '\n' ∉ tl →
      takeToNewline (tl ++ '\n' :: r) = some (tl ++ ['\n'], r)
  | [], r, _ => by simp [takeToNewline]
  | c :: tl, r, h => by
    have hc : c ≠ '\n' := fun he => h (he ▸ List.mem_cons_self c tl)
    have hrec := takeToNewline_append tl r (fun hm => h (List.mem_cons_of_mem c hm))
    simp only [List.cons_append]
    rw [takeToNewline, if_neg hc, hrec]

/-- The fixed prefix of the pattern consumes exactly the seventeen header
characters of a well-formed cue. -/
theorem matchToks_header (c : VttCue) (hd : c.wfDigits) (s : List Char) :
    matchToks headerToks
      (c.d1 :: c.d2 :: ':' :: c.d3 :: c.d4 :: ':' :: c.d5 :: c.d6 :: '.' ::
        c.d7 :: c.d8 :: c.d9 :: ' ' :: '-' :: '-' :: '>' :: ' ' :: s) =
    some ([c.d1, c.d2, ':', c.d3, c.d4, ':', c.d5, c.d6, '.', c.d7, c.d8,
      c.d9, ' ', '-', '-', '>', ' '], s) := by
  obtain ⟨h1, h2, h3, h4, h5, h6, h7, h8, h9⟩ := hd
  simp [headerToks, matchToks, h1, h2, h3, h4, h5, h6, h7, h8, h9]

/-- The cue pattern, attempted at the start of a well-formed cue followed by
a blank line or the end of the input, matches exactly that cue and captures
its header and text verbatim. -/
theorem matchAt_render (c : VttCue) (hwf : c.WF) (r : List Char)
    (hr : r = [] ∨ ∃ r2, r = '\n' :: '\n' :: r2) :
    matchAt (c.render ++ r) = some ((c.headerRecord, c.textRecord), r) := by
  obtain ⟨hdig, htail, hlne, hall⟩ := hwf
  have hshape : c.render ++ r =
      [c.d1, c.d2, ':', c.d3, c.d4, ':', c.d5, c.d6, '.', c.d7, c.d8, c.d9,
        ' ', '-', '-', '>', ' '] ++ (c.tail ++ '\n' :: (c.textRecord ++ r)) := by
    simp [VttCue.render, VttCue.headerRecord, List.append_assoc]
  have hbody : takeBody (c.textRecord ++ r) = (c.textRecord, r) := by
    have hok : okBody c.textRecord = true := okBody_joinLines c.lines hall
    rcases hr with rfl | ⟨r2, rfl⟩
    · rw [List.append_nil]
      exact takeBody_all _ hok
    · exact takeBody_append _ _ hok
  rw [hshape]
  simp [matchAt, matchToks_header c hdig,
    takeToNewline_append c.tail (c.textRecord ++ r) htail, hbody,
    VttCue.headerRecord, List.append_assoc]

/-- The scan yields nothing on an exhausted input. -/
theorem findallAux_nil : ∀ fuel : Nat, findallAux fuel [] = []
  | 0 => rfl
  | _ + 1 => rfl

/-- One scan step on a successful match attempt. -/
theorem findallAux_match (fuel : Nat) (s r : List Char)
    (g : List Char × List Char) (hs : s ≠ [])
    (h : matchAt s = some (g, r)) :
    findallAux (fuel + 1) s = g :: findallAux fuel r := by
  cases s with
  | nil => exact absurd rfl hs
  | cons x xs => simp [findallAux, h]

/-- One scan step skipping a position where no header can start. -/
theorem findallAux_skip (fuel : Nat) (r : List Char) :
    findallAux (fuel + 1) ('\n' :: r) = findallAux fuel r := by
  have h : matchAt ('\n' :: r) = none := rfl
  simp [findallAux, h]

/-- A well-formed cue's rendering is non-empty. -/
theorem render_ne_nil (c : VttCue) : c.render ≠ [] := by
  simp [VttCue.render, VttCue.headerRecord]

/-- The scan over a well-formed input, with fuel at least the input length,
returns exactly the cue records. -/
theorem findallAux_render :
    ∀ (cues : List VttCue), (∀ c ∈ cues, c.WF) →
      ∀ fuel, (vttRender cues).length ≤ fuel →
      findallAux fuel (vttRender cues) = cueRecords cues
  | [], _, fuel, _ => by simp [vttRender, findallAux_nil, cueRecords]
  | [c], h, fuel, hf => by
    have hwf := h c (List.mem_singleton_self c)
    have hne : vttRender [c] ≠ [] := by
      simpa [vttRender] using render_ne_nil c
    have h1 : 1 ≤ fuel := by
      rcases List.exists_cons_of_ne_nil hne with ⟨x, xs, hx⟩
      rw [hx] at hf
      simp at hf
      omega
    obtain ⟨f, rfl⟩ : ∃ f, fuel = f + 1 := ⟨fuel - 1, by omega⟩
    have hm : matchAt (vttRender [c]) =
        some ((c.headerRecord, c.textRecord), []) := by
      have := matchAt_render c hwf [] (Or.inl rfl)
      simpa [vttRender] using this
    rw [findallAux_match f _ _ _ hne hm, findallAux_nil]
    rfl
  | c :: c2 :: cs, h, fuel, hf => by
    have hwf := h c (List.mem_cons_self c (c2 :: cs))
    have hrest : ∀ d ∈ c2 :: cs, d.WF :=
      fun d hd => h d (List.mem_cons_of_mem c hd)
    have hrender : vttRender (c :: c2 :: cs) =
        c.render ++ '\n' :: '\n' :: vttRender (c2 :: cs) := rfl
    have hclen : 1 ≤ c.render.length := by
      rcases List.exists_cons_of_ne_nil (render_ne_nil c) with ⟨x, xs, hx⟩
      simp [hx]
    have hlen : (vttRender (c :: c2 :: cs)).length =
        c.render.length + 2 + (vttRender (c2 :: cs)).length := by
      simp [hrender]
      omega
    have hfuel : c.render.length + 2 + (vttRender (c2 :: cs)).length ≤ fuel := by
      rw [← hlen]; exact hf
    obtain ⟨f, rfl⟩ : ∃ f, fuel = f + 1 := ⟨fuel - 1, by omega⟩
    have hm := matchAt_render c hwf ('\n' :: '\n' :: vttRender (c2 :: cs))
      (Or.inr ⟨_, rfl⟩)
    rw [hrender, findallAux_match f _ _ _ (by simp [render_ne_nil c]) hm]
    obtain ⟨f2, rfl⟩ : ∃ f2, f = f2 + 1 := ⟨f - 1, by omega⟩
    rw [findallAux_skip f2 _]
    obtain ⟨f3, rfl⟩ : ∃ f3, f2 = f3 + 1 := ⟨f2 - 1, by omega⟩
    rw [findallAux_skip f3 _]
    rw [findallAux_render (c2 :: cs) hrest f3 (by omega)]
    rfl

/-- **C7.** On every well-formed timed-text input — cues with a digit-valid
timing header line, one or more non-empty newline-free text lines, separated
by blank lines and terminated by the end of the input — the extractor
returns exactly one record per cue, in order, each preserving the original
timing-header line and the raw cue text verbatim; in particular it returns
exactly `N` records for `N` cues. -/
theorem c7_extractor_exact (cues : List VttCue)
    (hwf : ∀ c ∈ cues, c.WF) :
    cue_findall (vttRender cues) = cueRecords cues
    ∧ (cue_findall (vttRender cues)).length = cues.length := by
  have h := findallAux_render cues hwf (vttRender cues).length le_rfl
  refine ⟨h, ?_⟩
  rw [show cue_findall (vttRender cues) =
    findallAux (vttRender cues).length (vttRender cues) from rfl, h]
  simp [cueRecords]

/-- Concrete two-cue well-formed input for the C7 witness. -/
def c7wCues : List VttCue :=
  [⟨'0', '0', '0', '0', '0', '1', '0', '0', '0', "00:00:02.000".data,
    ["hello <i>world</i>".data, "second line".data]⟩,
   ⟨'0', '0', '0', '0', '0', '2', '0', '0', '0', "00:00:03.000".data,
    ["bye".data]⟩]

/-- **C7 witness.** -/
theorem c7_witness :
    (∀ c ∈ c7wCues, c.WF)
    ∧ cue_findall (vttRender c7wCues) = cueRecords c7wCues :=
  ⟨by decide, (c7_extractor_exact c7wCues (by decide)).1⟩

end YtParallel
